import Mathlib

/-!
DocuEdit page model (`app.js`).

A shallow embedding of the page-management and persistence code of `app.js`:
`addPage`, `deletePage`, `switchPage`, `nextPage`, `prevPage`, `autoSave` and
`loadDocument`, together with the three globals they share (`editor`, `pages`,
`currentPageIndex`).

Modelling decisions.

* DOM elements are mutable objects that the globals hold by reference, so the
  model has an explicit heap (`State.heap`) and element references are heap
  indices. `document.createElement` allocates the next index.
* An element's `innerHTML` is kept as the string its getter returns. The setter
  parses the assigned string and the getter serialises the resulting tree, so
  `el.innerHTML = v` stores `Host.reserialize v`, which need not be `v`; in
  particular `el.innerHTML = el.innerHTML` can change the element. A user edit
  changes the tree directly and is not passed through `reserialize`.
* `pages[i]` on a JavaScript array yields `undefined` outside the array; the
  model reads with `index`, which returns `none` there, and a property access
  on `undefined`/`null` raises `TypeError`.
* `JSON.parse`, `JSON.stringify`, the HTML parser and serialiser and the string
  conversion performed by the `innerHTML` setter belong to the browser, not to
  `app.js`; they are the fields of `Host`, a parameter of the page functions.
* `confirm(...)` is answered by the user; the answer is an argument of
  `deletePage`. `alert` and `console.error` append to a log.
* Writes that only refresh indicator widgets (`updatePageIndicator`,
  `updateWordCount`, `updateLastEdited`, `lastSaveTime`, `focus()`) are not
  modelled: nothing in the modelled functions reads them back.
* The document is taken to contain the elements the script looks up by id
  (`docTitle`, `pageContainer` and the indicator widgets), and `localStorage`
  reads and writes are taken to succeed.
-/

namespace DocuEdit

/-! ## Data model -/

/-- Where an element hangs in the document tree. -/
inductive Parent where
  | pageContainer
  | elsewhere
  | detached
  deriving DecidableEq, Repr

/-- A DOM element, reduced to what the page code reads or writes. -/
structure Element where
  domId : String
  classes : List String
  contentEditable : Bool
  innerHTML : String
  parent : Parent
  deriving DecidableEq, Repr

/-- Exceptions the modelled code can raise. -/
inductive JsError where
  | typeError
  | syntaxError
  deriving DecidableEq, Repr

/-- A JSON value as returned by `JSON.parse`; a number is kept as the text
JavaScript prints for it. -/
inductive Json where
  | null
  | bool (b : Bool)
  | number (text : String)
  | string (s : String)
  | array (items : List Json)
  | object (members : List (String × Json))

/-- Browser built-ins used by the page code. `parse` returning `none` stands for
`JSON.parse` throwing `SyntaxError`, which it does on the empty text;
`stringify` is `JSON.stringify` on an array of strings; `domString` is the
conversion to a string that the `innerHTML` setter applies to a value that is
not a string; `reserialize v` is what `el.innerHTML` reads after
`el.innerHTML = v` on a `div`. -/
structure Host where
  parse : String → Option Json
  stringify : List String → String
  domString : Json → String
  reserialize : String → String
  parse_empty : parse "" = none

/-- The globals of `app.js` plus the parts of the browser they act on. -/
structure State where
  heap : List Element
  editor : Option Nat
  pages : List Nat
  currentPageIndex : Int
  docTitle : String
  localStorage : List (String × String)
  saveStatus : String
  alerts : List String
  consoleErrors : List Int
  deriving DecidableEq, Repr

/-- Result of running a function: normal completion, or an exception together
with the state at the moment it was raised. -/
inductive Outcome where
  | ok (s : State)
  | throw (e : JsError) (s : State)
  deriving DecidableEq, Repr

/-- Sequencing: an exception aborts the rest of the function body. -/
def Outcome.bind (o : Outcome) (f : State → Outcome) : Outcome :=
  match o with
  | .ok s => f s
  | .throw e s => .throw e s

/-! ## Browser primitives -/

/-- JavaScript array read `xs[i]`: `undefined` (here `none`) outside the array. -/
def index (xs : List Nat) (i : Int) : Option Nat :=
  if i < 0 then none else xs[i.toNat]?

/-- Apply `f` to the element behind reference `r`. -/
def updateElement (heap : List Element) (r : Nat) (f : Element → Element) : List Element :=
  match heap[r]? with
  | some e => heap.set r (f e)
  | none => heap

/-- Value of `r.innerHTML`. -/
def readInnerHTML (s : State) (r : Nat) : String :=
  match s.heap[r]? with
  | some e => e.innerHTML
  | none => ""

/-- Effect of `r.innerHTML = v`: the element holds the serialisation of the tree
parsed from `v`. -/
def writeInnerHTML (h : Host) (s : State) (r : Nat) (v : String) : State :=
  { s with heap := updateElement s.heap r (fun e => { e with innerHTML := h.reserialize v }) }

/-- Effect of `r.classList.add(c)`. -/
def classListAdd (s : State) (r : Nat) (c : String) : State :=
  { s with
    heap := updateElement s.heap r
              (fun e => if c ∈ e.classes then e else { e with classes := e.classes ++ [c] }) }

/-- Effect of `r.classList.remove(c)`. -/
def classListRemove (s : State) (r : Nat) (c : String) : State :=
  { s with
    heap := updateElement s.heap r
              (fun e => { e with classes := e.classes.filter (fun x => x != c) }) }

/-- Effect of `r.remove()`: the element leaves the document tree. -/
def removeElement (s : State) (r : Nat) : State :=
  { s with heap := updateElement s.heap r (fun e => { e with parent := .detached }) }

/-- Effect of `pageContainer.innerHTML = ''`: every child of the container is detached. -/
def clearPageContainer (s : State) : State :=
  { s with
    heap := s.heap.map
              (fun e => if e.parent = .pageContainer then { e with parent := .detached } else e) }

/-- The four statements that build a page in `addPage` and `loadDocument`:
`createElement('div')`, `className = 'page'`, `contentEditable = true`,
`innerHTML = content`, followed by `pageContainer.appendChild`. -/
def newPageElement (h : Host) (content : String) : Element :=
  { domId := "", classes := ["page"], contentEditable := true,
    innerHTML := h.reserialize content, parent := .pageContainer }

/-- Result of `document.getElementById(id)` among the modelled elements: the first
attached element carrying that id. -/
def getElementById (s : State) (id : String) : Option Nat :=
  let i := s.heap.findIdx (fun e => e.domId == id && e.parent != .detached)
  if i < s.heap.length then some i else none

/-- Result of `localStorage.getItem(key)`; `none` is `null`. -/
def getItem (store : List (String × String)) (key : String) : Option String :=
  store.lookup key

/-- Result of `localStorage.setItem(key, value)`. -/
def setItem (store : List (String × String)) (key value : String) : List (String × String) :=
  (key, value) :: store.filter (fun kv => kv.1 != key)

/-! ## A reference host

A JSON reader and writer over character lists and the re-serialisation of the
markup fragments used in the examples, enough to run the page code on concrete
states. The general theorems are stated for an arbitrary `Host`; this one
instantiates them. Strings are sequences of Unicode scalar values, so an
unpaired surrogate escape, which a JavaScript string can hold, is read as
U+FFFD. -/

namespace MiniHtml

/-- A table row in which a `span` encloses a cell, as `changeFontSize` leaves it
when the selection runs across cells (`extractContents` then `insertNode`,
lines 80-85). -/
def unstableRow : String :=
  "<table><tbody><tr><td>a</td><span style=\"font-size: 18px;\"><td>b</td></span></tr></tbody></table>"

/-- What `innerHTML` reads after `unstableRow` was assigned: inside a table row the
HTML tree builder puts the `span` in front of the table and the cell into the
row, and drops the stray end tag. -/
def unstableRowReparsed : String :=
  "<span style=\"font-size: 18px;\"></span><table><tbody><tr><td>a</td><td>b</td></tr></tbody></table>"

/-- Re-serialisation on the markup used in the examples: `unstableRow` is read back
as `unstableRowReparsed`; the other fragments used (plain words, the
placeholder paragraph, the welcome markup, `unstableRowReparsed`) are read back
as assigned, and so is every other string here, which a browser does only for
markup that is already in serialised form. -/
def reserialize (v : String) : String :=
  if v = unstableRow then unstableRowReparsed else v

end MiniHtml

namespace MiniJson

/-- The double-quote character. -/
def dq : Char := Char.ofNat 34

/-- The backslash character. -/
def bs : Char := Char.ofNat 92

/-- Lower-case hexadecimal digit of `n < 16`. -/
def hexDigit (n : Nat) : Char :=
  if n < 10 then Char.ofNat (48 + n) else Char.ofNat (87 + n)

/-- Value of a hexadecimal digit. -/
def hexValue (c : Char) : Option Nat :=
  if '0' ≤ c ∧ c ≤ '9' then some (c.toNat - 48)
  else if 'a' ≤ c ∧ c ≤ 'f' then some (c.toNat - 87)
  else if 'A' ≤ c ∧ c ≤ 'F' then some (c.toNat - 55)
  else none

/-- Value of four hexadecimal digits. -/
def hex4 (a b x y : Char) : Option Nat :=
  match hexValue a, hexValue b, hexValue x, hexValue y with
  | some a, some b, some x, some y => some (((a * 16 + b) * 16 + x) * 16 + y)
  | _, _, _, _ => none

/-- How `JSON.stringify` writes one character of a string. -/
def escapeChar (c : Char) : List Char :=
  if c = dq then [bs, dq]
  else if c = bs then [bs, bs]
  else if c = Char.ofNat 8 then [bs, 'b']
  else if c = Char.ofNat 9 then [bs, 't']
  else if c = Char.ofNat 10 then [bs, 'n']
  else if c = Char.ofNat 12 then [bs, 'f']
  else if c = Char.ofNat 13 then [bs, 'r']
  else if c.toNat < 32 then [bs, 'u', '0', '0', hexDigit (c.toNat / 16), hexDigit (c.toNat % 16)]
  else [c]

/-- A string as a JSON string literal. -/
def quote (s : String) : List Char :=
  dq :: (s.data.flatMap escapeChar ++ [dq])

/-- The text of `JSON.stringify` applied to an array of strings. -/
def stringify (xs : List String) : String :=
  String.mk ('[' :: (List.intercalate [','] (xs.map quote) ++ [']']))

/-- Drop leading JSON whitespace. -/
def skipWs : List Char → List Char
  | c :: cs => if c = ' ' ∨ c = Char.ofNat 9 ∨ c = Char.ofNat 10 ∨ c = Char.ofNat 13
               then skipWs cs else c :: cs
  | [] => []

/-- The character written by a single-letter escape. -/
def simpleEscape (e : Char) : Option Char :=
  if e = dq then some dq
  else if e = bs then some bs
  else if e = '/' then some '/'
  else if e = 'b' then some (Char.ofNat 8)
  else if e = 't' then some (Char.ofNat 9)
  else if e = 'n' then some (Char.ofNat 10)
  else if e = 'f' then some (Char.ofNat 12)
  else if e = 'r' then some (Char.ofNat 13)
  else none

/-- The code point of a surrogate pair. -/
def pairValue (hi lo : Nat) : Nat :=
  65536 + (hi - 55296) * 1024 + (lo - 56320)

/-- Append U+FFFD for a high surrogate that was not followed by its low half. -/
def flushPending (pending : Option Nat) (acc : List Char) : List Char :=
  match pending with
  | some _ => acc ++ [Char.ofNat 65533]
  | none => acc

/-- Read the body of a string literal, after its opening quote. `pending` holds a
high surrogate read from a `u` escape; a low surrogate escape right after it
completes the pair into one character. -/
def readString : List Char → Option Nat → List Char → Option (String × List Char)
  | [], _, _ => none
  | c :: cs, pending, acc =>
    if c = dq then some (String.mk (flushPending pending acc), cs)
    else if c = bs then
      match cs with
      | 'u' :: a :: b :: x :: y :: rest =>
        match hex4 a b x y with
        | none => none
        | some v =>
          if 56320 ≤ v ∧ v < 57344 then
            match pending with
            | some hi => readString rest none (acc ++ [Char.ofNat (pairValue hi v)])
            | none => readString rest none (acc ++ [Char.ofNat 65533])
          else if 55296 ≤ v ∧ v < 56320 then readString rest (some v) (flushPending pending acc)
          else readString rest none (flushPending pending acc ++ [Char.ofNat v])
      | e :: rest =>
        match simpleEscape e with
        | some ch => readString rest none (flushPending pending acc ++ [ch])
        | none => none
      | [] => none
    else if c.toNat < 32 then none
    else readString cs none (flushPending pending acc ++ [c])

/-- Read a run of decimal digits. -/
def readDigits : List Char → List Char → List Char × List Char
  | c :: cs, acc => if '0' ≤ c ∧ c ≤ '9' then readDigits cs (acc ++ [c]) else (acc, c :: cs)
  | [], acc => (acc, [])

/-- Read a non-empty run of decimal digits. -/
def readDigits1 (cs : List Char) : Option (List Char × List Char) :=
  match readDigits cs [] with
  | ([], _) => none
  | (ds, rest) => some (ds, rest)

/-- Read the optional fraction part of a number: its digits. -/
def readFraction (cs : List Char) : Option (List Char × List Char) :=
  match cs with
  | '.' :: rest => readDigits1 rest
  | _ => some ([], cs)

/-- A positive rational `num / den` rounded to the nearest binary64 value
`f * 2 ^ q` (ties to even); `none` when it overflows to `Infinity`. The result
`(0, q)` stands for zero. -/
def toDouble (num den : Nat) : Option (Nat × Int) :=
  let b : Int := (Nat.log2 num : Int) - (Nat.log2 den : Int)
  let atLeast : Bool :=
    if b ≥ 0 then decide (den * 2 ^ b.toNat ≤ num) else decide (den ≤ num * 2 ^ (-b).toNat)
  let e0 : Int := if atLeast then b else b - 1
  let q : Int := max (e0 - 52) (-1074)
  let a : Nat := if q ≥ 0 then num else num * 2 ^ (-q).toNat
  let d : Nat := if q ≥ 0 then den * 2 ^ q.toNat else den
  let f0 := a / d
  let r := a % d
  let f := if 2 * r > d then f0 + 1 else if 2 * r = d then (if f0 % 2 = 0 then f0 else f0 + 1) else f0
  let (f1, q1) := if f = 2 ^ 53 then (2 ^ 52, q + 1) else (f, q)
  if q1 > 971 then none else some (f1, q1)

/-- Decimal digits of a natural number. -/
def digitsOf (n : Nat) : List Char :=
  (Nat.toDigits 10 n)

/-- Drop trailing zeros, keeping at least one digit. -/
def stripZeros (ds : List Char) : List Char :=
  match (ds.reverse.dropWhile (fun c => c = '0')).reverse with
  | [] => ['0']
  | r => r

/-- The shortest digit string `s` and exponent `n` with `s * 10 ^ (n - k)` rounding
to the binary64 value `f * 2 ^ q`, `k` the number of digits, as `Number::toString`
prescribes; the search tries `k = 1, 2, ...`. -/
def shortest (f : Nat) (q : Int) : List Char × Int :=
  let dn : Nat := if q ≥ 0 then f * 2 ^ q.toNat else f
  let dd : Nat := if q ≥ 0 then 1 else 2 ^ (-q).toNat
  let est : Int := ((digitsOf dn).length : Int) - ((digitsOf dd).length : Int)
  let below : Bool :=
    if est ≥ 0 then decide (dn < dd * 10 ^ est.toNat) else decide (dn * 10 ^ (-est).toNat < dd)
  let n : Int := if below then est else est + 1
  let try1 (k : Nat) : Option (List Char × Int) :=
    let sh : Int := n - k
    let tn : Nat := if sh ≥ 0 then dn else dn * 10 ^ (-sh).toNat
    let td : Nat := if sh ≥ 0 then dd * 10 ^ sh.toNat else dd
    let lo := tn / td
    let r := tn % td
    let valid (c : Nat) : Bool :=
      let cn : Nat := if sh ≥ 0 then c * 10 ^ sh.toNat else c
      let cd : Nat := if sh ≥ 0 then 1 else 10 ^ (-sh).toNat
      c ≠ 0 && toDouble cn cd == some (f, q)
    let pick (c : Nat) : Option (List Char × Int) :=
      let ds := digitsOf c
      some (stripZeros ds, n + ((ds.length : Int) - k))
    let vlo := valid lo
    let vhi := valid (lo + 1)
    if vlo && vhi then
      if 2 * r < td then pick lo
      else if 2 * r > td then pick (lo + 1)
      else if lo % 2 = 0 then pick lo else pick (lo + 1)
    else if vlo then pick lo
    else if vhi then pick (lo + 1)
    else none
  match (List.range 17).findSome? (fun i => try1 (i + 1)) with
  | some r => r
  | none => (digitsOf f, 0)

/-- Decimal text of an integer exponent with its sign, as in `1e+21`. -/
def exponentText (e : Int) : List Char :=
  (if e < 0 then ['-'] else ['+']) ++ digitsOf e.natAbs

/-- Layout of `Number::toString` for digits `ds` and exponent `n`. -/
def layout (ds : List Char) (n : Int) : List Char :=
  let k : Int := ds.length
  if k ≤ n ∧ n ≤ 21 then ds ++ List.replicate (n - k).toNat '0'
  else if 0 < n ∧ n ≤ 21 then ds.take n.toNat ++ ['.'] ++ ds.drop n.toNat
  else if -6 < n ∧ n ≤ 0 then ['0', '.'] ++ List.replicate (-n).toNat '0' ++ ds
  else
    match ds with
    | [d] => [d, 'e'] ++ exponentText (n - 1)
    | d :: rest => [d, '.'] ++ rest ++ ['e'] ++ exponentText (n - 1)
    | [] => []

/-- Value of a run of decimal digits. -/
def digitsValue (ds : List Char) : Nat :=
  ds.foldl (fun acc c => acc * 10 + (c.toNat - 48)) 0

/-- The string JavaScript prints for the Number that a JSON number literal
denotes: `negative` is its sign, `intDigits` and `fracDigits` the digits around
the point, `expo` its decimal exponent. -/
def numberText (negative : Bool) (intDigits fracDigits : List Char) (expo : Int) : String :=
  let m := digitsValue (intDigits ++ fracDigits)
  let e : Int := expo - fracDigits.length
  if m = 0 then "0"
  else
    let num : Nat := if e ≥ 0 then m * 10 ^ e.toNat else m
    let den : Nat := if e ≥ 0 then 1 else 10 ^ (-e).toNat
    let sign : List Char := if negative then ['-'] else []
    match toDouble num den with
    | none => String.mk (sign ++ "Infinity".data)
    | some (f, q) =>
      if f = 0 then "0"
      else
        let (ds, n) := shortest f q
        String.mk (sign ++ layout ds n)

/-- Read the optional exponent part of a number: its value. -/
def readExponent (cs : List Char) : Option (Int × List Char) :=
  match cs with
  | e :: rest =>
    if e = 'e' ∨ e = 'E' then
      let (negative, body) :=
        match rest with
        | '+' :: r => (false, r)
        | '-' :: r => (true, r)
        | _ => (false, rest)
      match readDigits1 body with
      | some (ds, rest2) =>
        some (if negative then -(digitsValue ds : Int) else (digitsValue ds : Int), rest2)
      | none => none
    else some (0, cs)
  | [] => some (0, cs)

/-- Read a number literal; a leading zero may not be followed by a digit. -/
def readNumber (cs : List Char) : Option (Json × List Char) :=
  let (negative, body) :=
    match cs with
    | '-' :: rest => (true, rest)
    | _ => (false, cs)
  match readDigits1 body with
  | none => none
  | some ('0' :: _ :: _, _) => none
  | some (ds, rest) =>
    match readFraction rest with
    | none => none
    | some (frac, rest2) =>
      match readExponent rest2 with
      | none => none
      | some (ex, rest3) => some (.number (numberText negative ds frac ex), rest3)

mutual

/-- Read one JSON value; `fuel` bounds the nesting and the number of entries. -/
def readValue : Nat → List Char → Option (Json × List Char)
  | 0, _ => none
  | fuel + 1, cs =>
    match skipWs cs with
    | 'n' :: 'u' :: 'l' :: 'l' :: rest => some (.null, rest)
    | 't' :: 'r' :: 'u' :: 'e' :: rest => some (.bool true, rest)
    | 'f' :: 'a' :: 'l' :: 's' :: 'e' :: rest => some (.bool false, rest)
    | '[' :: rest =>
      match skipWs rest with
      | ']' :: rest2 => some (.array [], rest2)
      | _ => readItems fuel rest []
    | '\x7b' :: rest =>
      match skipWs rest with
      | '\x7d' :: rest2 => some (.object [], rest2)
      | _ => readMembers fuel rest []
    | c :: rest =>
      if c = dq then
        match readString rest none [] with
        | some (s, rest2) => some (.string s, rest2)
        | none => none
      else readNumber (c :: rest)
    | [] => none

/-- Read the entries of an array after `[`. -/
def readItems : Nat → List Char → List Json → Option (Json × List Char)
  | 0, _, _ => none
  | fuel + 1, cs, acc =>
    match readValue fuel cs with
    | none => none
    | some (v, rest) =>
      match skipWs rest with
      | ',' :: rest2 => readItems fuel rest2 (acc ++ [v])
      | ']' :: rest2 => some (.array (acc ++ [v]), rest2)
      | _ => none

/-- Read the members of an object after the opening brace. -/
def readMembers : Nat → List Char → List (String × Json) → Option (Json × List Char)
  | 0, _, _ => none
  | fuel + 1, cs, acc =>
    match skipWs cs with
    | c :: rest =>
      if c = dq then
        match readString rest none [] with
        | none => none
        | some (k, rest2) =>
          match skipWs rest2 with
          | ':' :: rest3 =>
            match readValue fuel rest3 with
            | none => none
            | some (v, rest4) =>
              match skipWs rest4 with
              | ',' :: rest5 => readMembers fuel rest5 (acc ++ [(k, v)])
              | '\x7d' :: rest5 => some (.object (acc ++ [(k, v)]), rest5)
              | _ => none
          | _ => none
      else none
    | [] => none

end

/-- The value of `JSON.parse(text)`, or `none` where it throws `SyntaxError`. -/
def parse (text : String) : Option Json :=
  match readValue (2 * text.data.length + 2) text.data with
  | some (v, rest) => if skipWs rest = [] then some v else none
  | none => none

mutual

/-- String conversion applied by the `innerHTML` setter: `null` becomes the empty
string, an object prints as `[object Object]`, an array joins its entries with
commas. -/
def domString : Json → String
  | .null => ""
  | .bool true => "true"
  | .bool false => "false"
  | .number text => text
  | .string s => s
  | .object _ => "[object Object]"
  | .array items => ",".intercalate (domStrings items)

/-- The entries of an array as `Array.prototype.join` converts them. -/
def domStrings : List Json → List String
  | [] => []
  | v :: vs => domString v :: domStrings vs

end

/-- The reference host. -/
def host : Host :=
  { parse := parse, stringify := stringify, domString := domString,
    reserialize := MiniHtml.reserialize, parse_empty := rfl }

end MiniJson

/-! ## The page functions of `app.js` -/

/-- The statement `pages[currentPageIndex].innerHTML = editor.innerHTML;`
(lines 191, 228 and 288). -/
def savePageContent (h : Host) (s : State) : Outcome :=
  match index s.pages s.currentPageIndex, s.editor with
  | some p, some e => .ok (writeInnerHTML h s p (readInnerHTML s e))
  | _, _ => .throw .typeError s

/-- Embeds `switchPage(index)`, lines 220-247. -/
def switchPage (h : Host) (s : State) (i : Int) : Outcome :=
  if i < 0 ∨ i ≥ s.pages.length then
    .ok { s with consoleErrors := s.consoleErrors ++ [i] }
  else
    let saved : Outcome :=
      match s.editor with
      | some _ => savePageContent h s
      | none => .ok s
    saved.bind fun s1 =>
      let s2 :=
        match index s1.pages s1.currentPageIndex with
        | some p => classListRemove s1 p "active"
        | none => s1
      let s3 := { s2 with currentPageIndex := i, editor := index s2.pages i }
      match s3.editor with
      | some e => .ok (classListAdd s3 e "active")
      | none => .ok s3

/-- Embeds `nextPage()`, lines 249-253. -/
def nextPage (h : Host) (s : State) : Outcome :=
  if s.currentPageIndex < (s.pages.length : Int) - 1 then
    switchPage h s (s.currentPageIndex + 1)
  else .ok s

/-- Embeds `prevPage()`, lines 255-259. -/
def prevPage (h : Host) (s : State) : Outcome :=
  if s.currentPageIndex > 0 then
    switchPage h s (s.currentPageIndex - 1)
  else .ok s

/-- Embeds `autoSave()`, lines 285-298. -/
def autoSave (h : Host) (s : State) : Outcome :=
  let title := s.docTitle
  (savePageContent h s).bind fun s1 =>
    let pagesContent := s1.pages.map (readInnerHTML s1)
    let store1 := setItem s1.localStorage "docuEditContent" (h.stringify pagesContent)
    let store2 := setItem store1 "docuEditTitle" title
    .ok { s1 with localStorage := store2, saveStatus := "All changes saved" }

/-- Embeds `addPage()`, lines 189-201. -/
def addPage (h : Host) (s : State) : Outcome :=
  (savePageContent h s).bind fun s1 =>
    let newPage := s1.heap.length
    let s2 := { s1 with heap := s1.heap ++ [newPageElement h "<p><br></p>"],
                        pages := s1.pages ++ [newPage] }
    (switchPage h s2 ((s2.pages.length : Int) - 1)).bind fun s3 =>
      autoSave h s3

/-- Embeds `deletePage()`, lines 203-218; `confirmed` is the user's answer to the
`confirm` dialog. After `pageToDelete.remove()` succeeded, `currentPageIndex`
is a valid index, so `splice(currentPageIndex, 1)` removes exactly that entry. -/
def deletePage (h : Host) (confirmed : Bool) (s : State) : Outcome :=
  if s.pages.length > 1 then
    if confirmed then
      match index s.pages s.currentPageIndex with
      | none => .throw .typeError s
      | some pageToDelete =>
        let s1 := removeElement s pageToDelete
        let s2 := { s1 with pages := s1.pages.eraseIdx s1.currentPageIndex.toNat }
        let s3 :=
          if s2.currentPageIndex ≥ s2.pages.length then
            { s2 with currentPageIndex := (s2.pages.length : Int) - 1 }
          else s2
        (switchPage h s3 s3.currentPageIndex).bind fun s4 =>
          autoSave h s4
    else .ok s
  else
    .ok { s with alerts := s.alerts ++ ["Cannot delete the last page."] }

/-- The string assigned to `innerHTML` for a parsed array entry: a string entry
itself, anything else after the setter's conversion to a string. -/
def entryMarkup (h : Host) : Json → String
  | .string c => c
  | v => h.domString v

/-- The `forEach` callback of `loadDocument`, lines 313-320, run over the entries. -/
def buildPages (h : Host) (s : State) : List Json → State
  | [] => s
  | content :: rest =>
    let newPage := s.heap.length
    buildPages h
      { s with heap := s.heap ++ [newPageElement h (entryMarkup h content)],
               pages := s.pages ++ [newPage] } rest

/-- The welcome markup of the default first page, line 329. -/
def welcomeMarkup : String :=
  "<h1>Welcome to DocuEdit</h1><p>Start typing your document here.</p>"

/-- Lines 301-304 of `loadDocument`: a saved title that is truthy (present and not
the empty string) is put into the title field. -/
def restoreTitle (s : State) : State :=
  match getItem s.localStorage "docuEditTitle" with
  | some savedTitle => if savedTitle ≠ "" then { s with docTitle := savedTitle } else s
  | none => s

/-- Embeds `loadDocument()`, lines 300-346. A stored value is truthy when it is
present and not the empty string. -/
def loadDocument (h : Host) (s : State) : Outcome :=
  let s1 := restoreTitle s
  let savedContent := (getItem s1.localStorage "docuEditContent").filter (fun c => c ≠ "")
  match savedContent with
  | some text =>
    match h.parse text with
    | none => .throw .syntaxError s1
    | some pagesContent =>
      let s2 := { clearPageContainer s1 with pages := [] }
      match pagesContent with
      | .array items =>
        let s3 := buildPages h s2 items
        if s3.pages.length > 0 then
          switchPage h s3 0
        else
          let defaultPage := s3.heap.length
          let s4 := { s3 with heap := s3.heap ++ [newPageElement h welcomeMarkup],
                              pages := s3.pages ++ [defaultPage] }
          switchPage h s4 0
      | _ => .throw .typeError s2
  | none =>
    match getElementById s1 "editor" with
    | some initialEditor =>
      if s1.pages.length = 0 then
        .ok (classListAdd { s1 with pages := s1.pages ++ [initialEditor] } initialEditor "active")
      else if s1.pages.length > 0 then switchPage h s1 0
      else .ok s1
    | none =>
      if s1.pages.length > 0 then switchPage h s1 0 else .ok s1

/-- A user edit: the tree under the editing surface changes so that its
serialisation is `content`. -/
def edit (s : State) (content : String) : State :=
  match s.editor with
  | some e => { s with heap := updateElement s.heap e (fun x => { x with innerHTML := content }) }
  | none => s

/-! ## Observations -/

/-- The stored markup of every page, in document order. -/
def contents (s : State) : List String :=
  s.pages.map (readInnerHTML s)

/-- What the editing surface displays. -/
def surface (s : State) : Option String :=
  s.editor.map (readInnerHTML s)

/-- The page contents after a normal completion. -/
def Outcome.pageContents : Outcome → Option (List String)
  | .ok s => some (contents s)
  | .throw _ _ => none

/-- The array `autoSave` serialises (line 289): the page contents after the flush
of line 288. -/
def savedContents (h : Host) (s : State) : List String :=
  match savePageContent h s with
  | .ok s1 => contents s1
  | .throw _ _ => []

/-! ## Collections, startup states and runs -/

/-- A page collection with its editing surface bound to the active page: the
active index is in range, `editor` is the active page's element, every page
reference is an allocated element, and no element is listed twice. -/
structure WellFormed (s : State) : Prop where
  index_nonneg : 0 ≤ s.currentPageIndex
  index_lt : s.currentPageIndex < s.pages.length
  editor_current : s.editor = index s.pages s.currentPageIndex
  refs_valid : ∀ r ∈ s.pages, r < s.heap.length
  nodup : s.pages.Nodup

/-- The state in which the `DOMContentLoaded` handler calls `loadDocument`:
`pages = [editor]` and `currentPageIndex = 0` (lines 2-8), `editor` an element. -/
def Startup (s : State) : Prop :=
  ∃ e, e < s.heap.length ∧ s.editor = some e ∧ s.pages = [e] ∧ s.currentPageIndex = 0

/-- A concrete startup state: one editing surface holding `editorContent`, the
title field holding `title`, and the given store. -/
def startupState (editorContent title : String) (store : List (String × String)) : State :=
  { heap := [{ domId := "editor", classes := ["page", "active"], contentEditable := true,
               innerHTML := editorContent, parent := .pageContainer }],
    editor := some 0, pages := [0], currentPageIndex := 0, docTitle := title,
    localStorage := store, saveStatus := "", alerts := [], consoleErrors := [] }

/-- A user action on the page collection. -/
inductive Op where
  | addPage
  | deletePage (confirmed : Bool)
  | switchPage (k : Int)
  | nextPage
  | prevPage
  deriving DecidableEq, Repr

/-- Run one action. -/
def step (h : Host) (s : State) : Op → Outcome
  | .addPage => addPage h s
  | .deletePage confirmed => deletePage h confirmed s
  | .switchPage k => switchPage h s k
  | .nextPage => nextPage h s
  | .prevPage => prevPage h s

/-- Run a sequence of actions; an exception ends the run. -/
def run (h : Host) : State → List Op → Outcome
  | s, [] => .ok s
  | s, op :: ops => (step h s op).bind (fun s1 => run h s1 ops)

/-- Call `addPage` `k` times in a row. -/
def addPages (h : Host) : Nat → State → Outcome
  | 0, s => .ok s
  | k + 1, s => (addPage h s).bind (addPages h k)

/-- `autoSave` followed by `loadDocument` in a fresh page that shares only the
store: the page contents and the title after loading, if both calls complete. -/
def roundTrip (h : Host) (s fresh : State) : Option (List String × String) :=
  match autoSave h s with
  | .throw _ _ => none
  | .ok s1 =>
    match loadDocument h { fresh with localStorage := s1.localStorage } with
    | .throw _ _ => none
    | .ok s2 => some (contents s2, s2.docTitle)

/-- A page element holding `content`. -/
def pageWith (content : String) (active : Bool) : Element :=
  { domId := "", classes := if active then ["page", "active"] else ["page"],
    contentEditable := true, innerHTML := content, parent := .pageContainer }

/-- Two pages `A`, `B` with the first one active, titled `Report`. -/
def twoPages : State :=
  { heap := [pageWith "A" true, pageWith "B" false],
    editor := some 0, pages := [0, 1], currentPageIndex := 0, docTitle := "Report",
    localStorage := [], saveStatus := "", alerts := [], consoleErrors := [] }

/-- Three pages `P0`, `P1`, `P2` with the middle one active and just edited to `X`. -/
def threePagesEdited : State :=
  edit
    { heap := [pageWith "P0" false, pageWith "P1" true, pageWith "P2" false],
      editor := some 1, pages := [0, 1, 2], currentPageIndex := 1, docTitle := "Report",
      localStorage := [], saveStatus := "", alerts := [], consoleErrors := [] }
    "X"

/-- Two pages with the first one active and holding `MiniHtml.unstableRow`, the
second holding `B`, titled `Report`. -/
def unstablePages : State :=
  { heap := [pageWith MiniHtml.unstableRow true, pageWith "B" false],
    editor := some 0, pages := [0, 1], currentPageIndex := 0, docTitle := "Report",
    localStorage := [], saveStatus := "", alerts := [], consoleErrors := [] }

/-- Two pages with the second one active and holding `MiniHtml.unstableRow`, the
first holding `A`, titled `Report`. -/
def unstableSecondPage : State :=
  { heap := [pageWith "A" false, pageWith MiniHtml.unstableRow true],
    editor := some 1, pages := [0, 1], currentPageIndex := 1, docTitle := "Report",
    localStorage := [], saveStatus := "", alerts := [], consoleErrors := [] }

/-! ## Heap lemmas -/

theorem updateElement_length (heap : List Element) (r : Nat) (f : Element → Element) :
    (updateElement heap r f).length = heap.length := by
  unfold updateElement
  split <;> simp

theorem updateElement_getElem? (heap : List Element) (r k : Nat) (f : Element → Element) :
    (updateElement heap r f)[k]? = if k = r then heap[r]?.map f else heap[k]? := by
  unfold updateElement
  split
  · rename_i e he
    by_cases hk : k = r
    · subst hk
      have hlt : k < heap.length := (List.getElem?_eq_some_iff.mp he).1
      simp [he, hlt]
    · have hk2 : r ≠ k := fun x => hk x.symm
      simp [hk, List.getElem?_set_ne hk2]
  · rename_i he
    by_cases hk : k = r
    · subst hk
      simp [he]
    · simp [hk]

theorem readInnerHTML_writeInnerHTML (h : Host) (s : State) (r k : Nat) (v : String) :
    readInnerHTML (writeInnerHTML h s r v) k
      = if k = r ∧ r < s.heap.length then h.reserialize v else readInnerHTML s k := by
  simp only [readInnerHTML, writeInnerHTML, updateElement_getElem?]
  by_cases hk : k = r
  · subst hk
    by_cases hlt : k < s.heap.length
    · simp [hlt]
    · simp [hlt, List.getElem?_eq_none (Nat.le_of_not_lt hlt)]
  · simp [hk]

theorem readInnerHTML_classListAdd (s : State) (r k : Nat) (c : String) :
    readInnerHTML (classListAdd s r c) k = readInnerHTML s k := by
  simp only [readInnerHTML, classListAdd, updateElement_getElem?]
  by_cases hk : k = r
  · subst hk
    cases he : s.heap[k]? with
    | none => simp
    | some e =>
      by_cases hc : c ∈ e.classes <;> simp [hc]
  · simp [hk]

theorem readInnerHTML_classListRemove (s : State) (r k : Nat) (c : String) :
    readInnerHTML (classListRemove s r c) k = readInnerHTML s k := by
  simp only [readInnerHTML, classListRemove, updateElement_getElem?]
  by_cases hk : k = r
  · subst hk
    cases he : s.heap[k]? with
    | none => simp
    | some e => simp
  · simp [hk]

/-- Reading depends on the heap only. -/
theorem readInnerHTML_congr (s t : State) (hh : s.heap = t.heap) (k : Nat) :
    readInnerHTML s k = readInnerHTML t k := by
  simp [readInnerHTML, hh]

/-! ## The bodies of the page functions in closed form -/

theorem index_eq_some_iff (xs : List Nat) (i : Int) (p : Nat) :
    index xs i = some p ↔ 0 ≤ i ∧ xs[i.toNat]? = some p := by
  unfold index
  by_cases hi : i < 0
  · simp [hi]
  · simp [hi, Int.not_lt.mp hi]

theorem index_in_range (xs : List Nat) (i : Int) (h0 : 0 ≤ i) (h1 : i < xs.length) :
    ∃ p, index xs i = some p ∧ p ∈ xs := by
  have hlt : i.toNat < xs.length := by omega
  refine ⟨xs[i.toNat], ?_, List.getElem_mem hlt⟩
  rw [index_eq_some_iff]
  exact ⟨h0, List.getElem?_eq_getElem hlt⟩

theorem index_some_range (xs : List Nat) (i : Int) (p : Nat) (h : index xs i = some p) :
    0 ≤ i ∧ i < xs.length ∧ p ∈ xs := by
  rw [index_eq_some_iff] at h
  obtain ⟨h0, h1⟩ := h
  have h2 := List.getElem?_eq_some_iff.mp h1
  obtain ⟨hlt, hp⟩ := h2
  refine ⟨h0, by omega, ?_⟩
  rw [← hp]
  exact List.getElem_mem hlt

theorem savePageContent_eq (h : Host) (s : State) (p e : Nat)
    (hp : index s.pages s.currentPageIndex = some p) (he : s.editor = some e) :
    savePageContent h s = .ok (writeInnerHTML h s p (readInnerHTML s e)) := by
  simp [savePageContent, hp, he]

theorem switchPage_eq (h : Host) (s : State) (i : Int) (p e q : Nat)
    (hp : index s.pages s.currentPageIndex = some p) (he : s.editor = some e)
    (hq : index s.pages i = some q) :
    switchPage h s i = .ok (classListAdd
      { classListRemove (writeInnerHTML h s p (readInnerHTML s e)) p "active" with
        currentPageIndex := i, editor := some q } q "active") := by
  obtain ⟨h0, h1, _⟩ := index_some_range _ _ _ hq
  have hcond : ¬ (i < 0 ∨ i ≥ (s.pages.length : Int)) := by omega
  unfold switchPage
  rw [if_neg hcond]
  simp only [he, savePageContent_eq h s p e hp he, Outcome.bind]
  have hp2 : index (writeInnerHTML h s p (readInnerHTML s e)).pages
      (writeInnerHTML h s p (readInnerHTML s e)).currentPageIndex = some p := hp
  simp only [hp2]
  have hq2 : index (classListRemove (writeInnerHTML h s p (readInnerHTML s e)) p "active").pages i
      = some q := hq
  simp only [hq2]

theorem autoSave_eq (h : Host) (s : State) (p e : Nat)
    (hp : index s.pages s.currentPageIndex = some p) (he : s.editor = some e) :
    autoSave h s = .ok
      { writeInnerHTML h s p (readInnerHTML s e) with
        localStorage := setItem
          (setItem s.localStorage "docuEditContent"
            (h.stringify (contents (writeInnerHTML h s p (readInnerHTML s e)))))
          "docuEditTitle" s.docTitle,
        saveStatus := "All changes saved" } := by
  unfold autoSave
  simp only [savePageContent_eq h s p e hp he, Outcome.bind]
  rfl

/-- In a well-formed state the active page and the editing surface are one element. -/
theorem WellFormed.active (s : State) (wf : WellFormed s) :
    ∃ p, index s.pages s.currentPageIndex = some p ∧ s.editor = some p ∧ p < s.heap.length := by
  obtain ⟨p, hp, hmem⟩ := index_in_range s.pages s.currentPageIndex wf.index_nonneg wf.index_lt
  exact ⟨p, hp, by rw [wf.editor_current, hp], wf.refs_valid p hmem⟩

theorem Startup.wellFormed (s : State) (hs : Startup s) : WellFormed s := by
  obtain ⟨e, he, hed, hp, hc⟩ := hs
  refine ⟨by omega, by simp [hc, hp], ?_, ?_, by simp [hp]⟩
  · simp [hed, hp, hc, index]
  · intro r hr
    simp [hp] at hr
    omega

/-- Overwriting what one listed element holds changes one entry of the mapped list. -/
theorem map_update (pages : List Nat) (f g : Nat → String) (p i : Nat) (v : String)
    (hnodup : pages.Nodup) (hi : pages[i]? = some p)
    (hg : ∀ k ∈ pages, g k = if k = p then v else f k) :
    pages.map g = (pages.map f).set i v := by
  obtain ⟨hlt, hpi⟩ := List.getElem?_eq_some_iff.mp hi
  apply List.ext_getElem
  · simp
  · intro j h1 h2
    have hj : j < pages.length := by simpa using h1
    simp only [List.getElem_map, List.getElem_set]
    rw [hg _ (List.getElem_mem hj)]
    by_cases hji : i = j
    · subst hji
      simp [hpi]
    · have hne : pages[j] ≠ p := by
        intro heq
        rw [← hpi] at heq
        exact hji ((List.Nodup.getElem_inj_iff hnodup).mp heq).symm
      simp [hji, hne]

/-- The contents after one page's element has been overwritten. -/
theorem contents_set (s t : State) (p : Nat) (v : String)
    (hnodup : s.pages.Nodup) (hp : index s.pages s.currentPageIndex = some p)
    (hpages : t.pages = s.pages)
    (hread : ∀ k, readInnerHTML t k = if k = p then v else readInnerHTML s k) :
    contents t = (contents s).set s.currentPageIndex.toNat v := by
  unfold contents
  rw [hpages]
  exact map_update s.pages (readInnerHTML s) (readInnerHTML t) p _ v hnodup
    ((index_eq_some_iff _ _ _).mp hp).2 (fun k _ => hread k)

/-! ## Well-formed states are preserved -/

/-- What `switchPage` does for a valid index; `editor` and the active page may be
different elements, as inside `deletePage` and `loadDocument`. -/
theorem switchPage_spec (h : Host) (s : State) (i : Int) (p e q : Nat)
    (hp : index s.pages s.currentPageIndex = some p) (he : s.editor = some e)
    (hq : index s.pages i = some q) (hrefs : ∀ r ∈ s.pages, r < s.heap.length)
    (hnodup : s.pages.Nodup) :
    ∃ t, switchPage h s i = .ok t ∧ WellFormed t ∧ t.pages = s.pages ∧ t.currentPageIndex = i
      ∧ t.editor = some q ∧ t.heap.length = s.heap.length
      ∧ (∀ k, readInnerHTML t k
          = if k = p then h.reserialize (readInnerHTML s e) else readInnerHTML s k)
      ∧ t.docTitle = s.docTitle ∧ t.localStorage = s.localStorage := by
  obtain ⟨h0, h1, _⟩ := index_some_range _ _ _ hq
  obtain ⟨_, _, hpmem⟩ := index_some_range _ _ _ hp
  have hplt : p < s.heap.length := hrefs p hpmem
  refine ⟨_, switchPage_eq h s i p e q hp he hq, ?_, rfl, rfl, rfl, ?_, ?_, rfl, rfl⟩
  · refine ⟨h0, h1, hq.symm, ?_, hnodup⟩
    intro r hr
    have := hrefs r hr
    simpa [classListAdd, classListRemove, writeInnerHTML, updateElement_length] using this
  · simp [classListAdd, classListRemove, writeInnerHTML, updateElement_length]
  · intro k
    rw [readInnerHTML_classListAdd]
    have hmid : readInnerHTML
        { classListRemove (writeInnerHTML h s p (readInnerHTML s e)) p "active" with
          currentPageIndex := i, editor := some q } k
        = readInnerHTML (classListRemove (writeInnerHTML h s p (readInnerHTML s e)) p "active") k :=
      rfl
    rw [hmid, readInnerHTML_classListRemove, readInnerHTML_writeInnerHTML]
    by_cases hk : k = p
    · simp [hk, hplt]
    · simp [hk]

/-- What `switchPage` does to a well-formed state, for a valid index: the active
page is re-serialised, nothing else is rewritten. -/
theorem switchPage_wf_spec (h : Host) (s : State) (i : Int) (p : Nat) (wf : WellFormed s)
    (hp : index s.pages s.currentPageIndex = some p)
    (h0 : 0 ≤ i) (h1 : i < s.pages.length) :
    ∃ t, switchPage h s i = .ok t ∧ WellFormed t ∧ t.pages = s.pages ∧ t.currentPageIndex = i
      ∧ t.editor = index s.pages i ∧ t.heap.length = s.heap.length
      ∧ (∀ k, readInnerHTML t k
          = if k = p then h.reserialize (readInnerHTML s p) else readInnerHTML s k)
      ∧ t.docTitle = s.docTitle ∧ t.localStorage = s.localStorage := by
  have he : s.editor = some p := by rw [wf.editor_current, hp]
  obtain ⟨q, hq, _⟩ := index_in_range s.pages i h0 h1
  obtain ⟨t, ht, wft, a1, a2, a3, a4, a5, a6, a7⟩ :=
    switchPage_spec h s i p p q hp he hq wf.refs_valid wf.nodup
  exact ⟨t, ht, wft, a1, a2, by rw [a3, hq], a4, a5, a6, a7⟩

/-- What `autoSave` does to a well-formed state: the active page is re-serialised
and the contents after that are written to the store. -/
theorem autoSave_wf_spec (h : Host) (s : State) (p : Nat) (wf : WellFormed s)
    (hp : index s.pages s.currentPageIndex = some p) :
    ∃ t, autoSave h s = .ok t ∧ WellFormed t ∧ t.pages = s.pages
      ∧ t.currentPageIndex = s.currentPageIndex ∧ t.editor = s.editor
      ∧ t.heap.length = s.heap.length
      ∧ (∀ k, readInnerHTML t k
          = if k = p then h.reserialize (readInnerHTML s p) else readInnerHTML s k)
      ∧ t.docTitle = s.docTitle
      ∧ t.localStorage = setItem
          (setItem s.localStorage "docuEditContent" (h.stringify (contents t)))
          "docuEditTitle" s.docTitle
      ∧ savedContents h s = contents t := by
  have he : s.editor = some p := by rw [wf.editor_current, hp]
  obtain ⟨_, _, hpmem⟩ := index_some_range _ _ _ hp
  have hplt : p < s.heap.length := wf.refs_valid p hpmem
  refine ⟨_, autoSave_eq h s p p hp he, ?_, rfl, rfl, rfl, ?_, ?_, rfl, rfl, ?_⟩
  · refine ⟨wf.index_nonneg, wf.index_lt, wf.editor_current, ?_, wf.nodup⟩
    intro r hr
    have := wf.refs_valid r hr
    simpa [writeInnerHTML, updateElement_length] using this
  · simp [writeInnerHTML, updateElement_length]
  · intro k
    have hmid : readInnerHTML
        { writeInnerHTML h s p (readInnerHTML s p) with
          localStorage := setItem
            (setItem s.localStorage "docuEditContent"
              (h.stringify (contents (writeInnerHTML h s p (readInnerHTML s p)))))
            "docuEditTitle" s.docTitle,
          saveStatus := "All changes saved" } k
        = readInnerHTML (writeInnerHTML h s p (readInnerHTML s p)) k := rfl
    rw [hmid, readInnerHTML_writeInnerHTML]
    by_cases hk : k = p
    · simp [hk, hplt]
    · simp [hk]
  · simp only [savedContents, savePageContent_eq h s p p hp he]
    rfl

theorem readInnerHTML_append (s : State) (e : Element) (k : Nat) (hk : k < s.heap.length)
    (t : State) (ht : t.heap = s.heap ++ [e]) : readInnerHTML t k = readInnerHTML s k := by
  simp [readInnerHTML, ht, List.getElem?_append_left hk]

theorem readInnerHTML_append_new (s : State) (e : Element)
    (t : State) (ht : t.heap = s.heap ++ [e]) : readInnerHTML t s.heap.length = e.innerHTML := by
  simp [readInnerHTML, ht]

/-- What `addPage` does to a well-formed state: the active page is re-serialised
twice (lines 191 and 228), the new page twice as well (lines 196 and 288). -/
theorem addPage_wf_spec (h : Host) (s : State) (p : Nat) (wf : WellFormed s)
    (hp : index s.pages s.currentPageIndex = some p) :
    ∃ t, addPage h s = .ok t ∧ WellFormed t
      ∧ contents t
          = (contents s).set s.currentPageIndex.toNat
              (h.reserialize (h.reserialize (readInnerHTML s p)))
            ++ [h.reserialize (h.reserialize "<p><br></p>")]
      ∧ t.pages.length = s.pages.length + 1
      ∧ t.currentPageIndex = s.pages.length := by
  have he : s.editor = some p := by rw [wf.editor_current, hp]
  obtain ⟨hc0, hc1, hpmem⟩ := index_some_range _ _ _ hp
  have hplt : p < s.heap.length := wf.refs_valid p hpmem
  -- line 191
  let s1 : State := writeInnerHTML h s p (readInnerHTML s p)
  have hsave : savePageContent h s = .ok s1 := savePageContent_eq h s p p hp he
  have hlen1 : s1.heap.length = s.heap.length := by
    simp [s1, writeInnerHTML, updateElement_length]
  have hread1 : ∀ k, readInnerHTML s1 k
      = if k = p then h.reserialize (readInnerHTML s p) else readInnerHTML s k := by
    intro k
    rw [readInnerHTML_writeInnerHTML]
    by_cases hk : k = p
    · simp [hk, hplt]
    · simp [hk]
  -- lines 193-198
  let s2 : State :=
    { s1 with heap := s1.heap ++ [newPageElement h "<p><br></p>"],
              pages := s1.pages ++ [s1.heap.length] }
  have hnat : s.currentPageIndex.toNat < s.pages.length := by omega
  have hp2 : index s2.pages s2.currentPageIndex = some p := by
    show index (s.pages ++ [s1.heap.length]) s.currentPageIndex = some p
    rw [← hp]
    simp [index, List.getElem?_append_left hnat]
  have wf2 : WellFormed s2 := by
    refine ⟨wf.index_nonneg, ?_, ?_, ?_, ?_⟩
    · show s.currentPageIndex < ((s.pages ++ [s1.heap.length]).length : Int)
      simp
      omega
    · show s.editor = index s2.pages s2.currentPageIndex
      rw [hp2, he]
    · intro r hr
      have hr2 : r ∈ s.pages ++ [s1.heap.length] := hr
      show r < (s1.heap ++ [newPageElement h "<p><br></p>"]).length
      simp only [List.mem_append, List.mem_singleton] at hr2
      simp only [List.length_append, List.length_singleton]
      rcases hr2 with hr2 | hr2
      · have := wf.refs_valid r hr2
        omega
      · omega
    · show (s.pages ++ [s1.heap.length]).Nodup
      rw [List.nodup_append]
      refine ⟨wf.nodup, by simp, ?_⟩
      intro a ha hb
      simp only [List.mem_singleton] at hb
      have := wf.refs_valid a ha
      omega
  have hq2 : index s2.pages ((s2.pages.length : Int) - 1) = some s1.heap.length := by
    show index (s.pages ++ [s1.heap.length])
      (((s.pages ++ [s1.heap.length]).length : Int) - 1) = some s1.heap.length
    rw [index_eq_some_iff]
    constructor
    · simp
    · have : (((s.pages ++ [s1.heap.length]).length : Int) - 1).toNat = s.pages.length := by
        simp
      rw [this]
      simp
  -- line 199
  obtain ⟨s3, hsw, wf3, hpages3, hidx3, hed3, hlen3, hread3, _, _⟩ :=
    switchPage_wf_spec h s2 ((s2.pages.length : Int) - 1) p wf2 hp2
      (by show (0 : Int) ≤ ((s.pages ++ [s1.heap.length]).length : Int) - 1; simp)
      (by omega)
  have hp3 : index s3.pages s3.currentPageIndex = some s1.heap.length := by
    rw [hpages3, hidx3]
    exact hq2
  -- line 200
  obtain ⟨s4, hauto, wf4, hpages4, hidx4, _, _, hread4, _, _, _⟩ :=
    autoSave_wf_spec h s3 s1.heap.length wf3 hp3
  have hread2new : readInnerHTML s2 s1.heap.length = h.reserialize "<p><br></p>" := by
    rw [readInnerHTML_append_new s1 (newPageElement h "<p><br></p>") s2 rfl]
    rfl
  have hread2old : ∀ k, k < s.heap.length → readInnerHTML s2 k = readInnerHTML s1 k := by
    intro k hk
    exact readInnerHTML_append s1 _ k (by omega) s2 rfl
  have hpne : p ≠ s1.heap.length := by omega
  refine ⟨s4, ?_, wf4, ?_, ?_, ?_⟩
  · unfold addPage
    simp only [hsave, Outcome.bind]
    show (switchPage h s2 ((s2.pages.length : Int) - 1)).bind (fun s3 => autoSave h s3) = .ok s4
    rw [hsw]
    exact hauto
  · unfold contents
    rw [hpages4, hpages3]
    show (s.pages ++ [s1.heap.length]).map (readInnerHTML s4) = _
    rw [List.map_append]
    congr 1
    · apply map_update s.pages (readInnerHTML s) (readInnerHTML s4) p _ _ wf.nodup
        ((index_eq_some_iff _ _ _).mp hp).2
      intro k hk
      have hklt : k < s.heap.length := wf.refs_valid k hk
      have hkne : k ≠ s1.heap.length := by omega
      rw [hread4, if_neg hkne, hread3]
      by_cases hkp : k = p
      · subst hkp
        simp only [if_true]
        rw [hread2old k hklt, hread1]
        simp
      · simp only [hkp, if_false]
        rw [hread2old k hklt, hread1]
        simp [hkp]
    · simp only [List.map_cons, List.map_nil]
      rw [hread4]
      simp only [if_true]
      rw [hread3, if_neg (fun x => hpne x.symm), hread2new]
  · rw [hpages4, hpages3]
    show (s.pages ++ [s1.heap.length]).length = s.pages.length + 1
    simp
  · rw [hidx4, hidx3]
    show (((s.pages ++ [s1.heap.length]).length : Int) - 1) = s.pages.length
    simp

/-- The closed form of a confirmed `deletePage` on a collection of at least two pages. -/
theorem deletePage_confirmed_eq (h : Host) (s : State) (p : Nat) (hn : s.pages.length > 1)
    (hp : index s.pages s.currentPageIndex = some p) :
    deletePage h true s =
      (switchPage h
        { removeElement s p with
          pages := s.pages.eraseIdx s.currentPageIndex.toNat,
          currentPageIndex :=
            if s.currentPageIndex ≥ ((s.pages.eraseIdx s.currentPageIndex.toNat).length : Int)
            then ((s.pages.eraseIdx s.currentPageIndex.toNat).length : Int) - 1
            else s.currentPageIndex }
        (if s.currentPageIndex ≥ ((s.pages.eraseIdx s.currentPageIndex.toNat).length : Int)
          then ((s.pages.eraseIdx s.currentPageIndex.toNat).length : Int) - 1
          else s.currentPageIndex)).bind (fun s4 => autoSave h s4) := by
  unfold deletePage
  rw [if_pos hn]
  simp only [if_true, hp]
  by_cases hc : s.currentPageIndex ≥ ((s.pages.eraseIdx s.currentPageIndex.toNat).length : Int)
  · have hc2 : (removeElement s p).currentPageIndex
        ≥ (((removeElement s p).pages.eraseIdx (removeElement s p).currentPageIndex.toNat).length
            : Int) := hc
    simp only [hc, hc2, if_true]
    rfl
  · have hc2 : ¬ (removeElement s p).currentPageIndex
        ≥ (((removeElement s p).pages.eraseIdx (removeElement s p).currentPageIndex.toNat).length
            : Int) := hc
    simp only [hc, hc2, if_false]
    rfl

/-- `deletePage` keeps a well-formed state well-formed and never throws on one. -/
theorem deletePage_wf_spec (h : Host) (confirmed : Bool) (s : State) (wf : WellFormed s) :
    ∃ t, deletePage h confirmed s = .ok t ∧ WellFormed t := by
  by_cases hn : s.pages.length > 1
  · cases confirmed with
    | false =>
      refine ⟨s, ?_, wf⟩
      simp [deletePage, hn]
    | true =>
      obtain ⟨p, hp, he, _⟩ := wf.active
      obtain ⟨hc0, hc1, _⟩ := index_some_range _ _ _ hp
      rw [deletePage_confirmed_eq h s p hn hp]
      have hlenE : (s.pages.eraseIdx s.currentPageIndex.toNat).length = s.pages.length - 1 := by
        rw [List.length_eraseIdx, if_pos (by omega)]
      generalize hj : (if s.currentPageIndex
          ≥ ((s.pages.eraseIdx s.currentPageIndex.toNat).length : Int)
          then ((s.pages.eraseIdx s.currentPageIndex.toNat).length : Int) - 1
          else s.currentPageIndex) = j
      have hj0 : 0 ≤ j ∧ j < ((s.pages.eraseIdx s.currentPageIndex.toNat).length : Int) := by
        rw [← hj]
        split <;> omega
      obtain ⟨q, hq, hqmem⟩ := index_in_range _ j hj0.1 hj0.2
      have hrefs : ∀ r ∈ s.pages.eraseIdx s.currentPageIndex.toNat,
          r < (removeElement s p).heap.length := by
        intro r hr
        have := wf.refs_valid r (List.mem_of_mem_eraseIdx hr)
        simpa [removeElement, updateElement_length] using this
      have hnd : (s.pages.eraseIdx s.currentPageIndex.toNat).Nodup :=
        List.Nodup.sublist (List.eraseIdx_sublist _ _) wf.nodup
      obtain ⟨s4, hsw, wf4, _⟩ :=
        switchPage_spec h
          { removeElement s p with
            pages := s.pages.eraseIdx s.currentPageIndex.toNat, currentPageIndex := j }
          j q p q hq he hq hrefs hnd
      obtain ⟨q4, hq4, _, _⟩ := wf4.active
      obtain ⟨s5, hauto, wf5, _⟩ := autoSave_wf_spec h s4 q4 wf4 hq4
      refine ⟨s5, ?_, wf5⟩
      rw [hsw]
      exact hauto
  · refine ⟨{ s with alerts := s.alerts ++ ["Cannot delete the last page."] }, ?_, ?_⟩
    · simp [deletePage, hn]
    · exact ⟨wf.index_nonneg, wf.index_lt, wf.editor_current, wf.refs_valid, wf.nodup⟩

/-- Every action keeps a well-formed state well-formed and never throws on one. -/
theorem step_wf (h : Host) (s : State) (op : Op) (wf : WellFormed s) :
    ∃ t, step h s op = .ok t ∧ WellFormed t := by
  obtain ⟨p, hp, _, _⟩ := wf.active
  cases op with
  | addPage =>
    obtain ⟨t, ht, wft, _⟩ := addPage_wf_spec h s p wf hp
    exact ⟨t, ht, wft⟩
  | deletePage confirmed => exact deletePage_wf_spec h confirmed s wf
  | switchPage k =>
    by_cases hk : k < 0 ∨ k ≥ (s.pages.length : Int)
    · refine ⟨{ s with consoleErrors := s.consoleErrors ++ [k] }, ?_, ?_⟩
      · simp [step, switchPage, hk]
      · exact ⟨wf.index_nonneg, wf.index_lt, wf.editor_current, wf.refs_valid, wf.nodup⟩
    · obtain ⟨t, ht, wft, _⟩ := switchPage_wf_spec h s k p wf hp (by omega) (by omega)
      exact ⟨t, ht, wft⟩
  | nextPage =>
    by_cases hk : s.currentPageIndex < (s.pages.length : Int) - 1
    · obtain ⟨t, ht, wft, _⟩ :=
        switchPage_wf_spec h s (s.currentPageIndex + 1) p wf hp
          (by have := wf.index_nonneg; omega) (by omega)
      exact ⟨t, by simp [step, nextPage, hk, ht], wft⟩
    · exact ⟨s, by simp [step, nextPage, hk], wf⟩
  | prevPage =>
    by_cases hk : s.currentPageIndex > 0
    · obtain ⟨t, ht, wft, _⟩ :=
        switchPage_wf_spec h s (s.currentPageIndex - 1) p wf hp (by omega)
          (by have := wf.index_lt; omega)
      exact ⟨t, by simp [step, prevPage, hk, ht], wft⟩
    · exact ⟨s, by simp [step, prevPage, hk], wf⟩

/-- Every run from a well-formed state completes in a well-formed state. -/
theorem run_wf (h : Host) (ops : List Op) :
    ∀ s, WellFormed s → ∃ t, run h s ops = .ok t ∧ WellFormed t := by
  induction ops with
  | nil => intro s wf; exact ⟨s, rfl, wf⟩
  | cons op ops ih =>
    intro s wf
    obtain ⟨s1, h1, wf1⟩ := step_wf h s op wf
    obtain ⟨t, ht, wft⟩ := ih s1 wf1
    exact ⟨t, by simp [run, h1, Outcome.bind, ht], wft⟩

/-! ## The store -/

theorem getItem_setItem_same (store : List (String × String)) (k v : String) :
    getItem (setItem store k v) k = some v := by
  simp [getItem, setItem, List.lookup]

theorem lookup_filter_ne (store : List (String × String)) (k k2 : String) (hk : k2 ≠ k) :
    (store.filter (fun kv => kv.1 != k)).lookup k2 = store.lookup k2 := by
  induction store with
  | nil => rfl
  | cons kv rest ih =>
    obtain ⟨a, b⟩ := kv
    by_cases ha : a = k
    · subst ha
      have hne : (k2 == a) = false := by simpa using hk
      simp [List.filter, List.lookup, hne, ih]
    · have hne : (a != k) = true := by simpa using ha
      simp only [List.filter, hne, List.lookup]
      rw [ih]

theorem getItem_setItem_other (store : List (String × String)) (k k2 v : String) (hk : k2 ≠ k) :
    getItem (setItem store k v) k2 = getItem store k2 := by
  have hne : (k2 == k) = false := by simpa using hk
  simp only [getItem, setItem, List.lookup, hne]
  exact lookup_filter_ne store k k2 hk

/-! ## `loadDocument` on a stored array -/

theorem restoreTitle_frame (s : State) :
    (restoreTitle s).heap = s.heap ∧ (restoreTitle s).pages = s.pages
      ∧ (restoreTitle s).editor = s.editor
      ∧ (restoreTitle s).currentPageIndex = s.currentPageIndex
      ∧ (restoreTitle s).localStorage = s.localStorage := by
  unfold restoreTitle
  split
  · split <;> simp
  · simp

theorem buildPages_spec (h : Host) (items : List Json) :
    ∀ s, (buildPages h s items).heap
          = s.heap ++ items.map (fun v => newPageElement h (entryMarkup h v))
      ∧ (buildPages h s items).pages = s.pages ++ List.range' s.heap.length items.length
      ∧ (buildPages h s items).editor = s.editor
      ∧ (buildPages h s items).currentPageIndex = s.currentPageIndex
      ∧ (buildPages h s items).docTitle = s.docTitle
      ∧ (buildPages h s items).localStorage = s.localStorage := by
  induction items with
  | nil => intro s; simp [buildPages]
  | cons v rest ih =>
    intro s
    obtain ⟨h1, h2, h3, h4, h5, h6⟩ :=
      ih { s with heap := s.heap ++ [newPageElement h (entryMarkup h v)],
                  pages := s.pages ++ [s.heap.length] }
    refine ⟨?_, ?_, ?_, ?_, ?_, ?_⟩
    · simp [buildPages, h1]
    · simp [buildPages, h2, List.range'_succ]
    · simp [buildPages, h3]
    · simp [buildPages, h4]
    · simp [buildPages, h5]
    · simp [buildPages, h6]

/-- Reading the elements appended to a heap returns their markup. -/
theorem read_appended (t : State) (pre els : List Element) (ht : t.heap = pre ++ els) :
    (List.range' pre.length els.length).map (readInnerHTML t) = els.map (fun e => e.innerHTML) := by
  apply List.ext_getElem
  · simp
  · intro i h1 h2
    simp only [List.getElem_map, List.getElem_range']
    have hi : i < els.length := by simpa using h2
    have hq : (pre ++ els)[pre.length + i]? = some els[i] := by
      rw [List.getElem?_append_right (by omega)]
      simp [hi]
    simp only [readInnerHTML, ht, Nat.one_mul, hq]

theorem readInnerHTML_clearPageContainer (s : State) (k : Nat) :
    readInnerHTML (clearPageContainer s) k = readInnerHTML s k := by
  simp only [readInnerHTML, clearPageContainer, List.getElem?_map]
  cases he : s.heap[k]? with
  | none => simp
  | some e =>
    by_cases hp : e.parent = .pageContainer <;> simp [hp]

/-- Activating the first of freshly built pages while `editor` still refers to an
older element `e`: the first new page receives the re-serialised markup of `e`. -/
theorem switchPage_first_built (h : Host) (t0 : State) (pre els : List Element) (e : Nat)
    (ht : t0.heap = pre ++ els) (hp : t0.pages = List.range' pre.length els.length)
    (hne : els ≠ []) (he : t0.editor = some e) (hci : t0.currentPageIndex = 0) :
    ∃ t, switchPage h t0 0 = .ok t ∧ WellFormed t
      ∧ contents t
          = h.reserialize (readInnerHTML t0 e) :: (els.map (fun x => x.innerHTML)).tail
      ∧ t.currentPageIndex = 0 ∧ t.docTitle = t0.docTitle := by
  cases els with
  | nil => exact absurd rfl hne
  | cons el rest =>
    have hpages : t0.pages = pre.length :: List.range' (pre.length + 1) rest.length := by
      rw [hp]
      simp [List.range'_succ]
    have hq : index t0.pages 0 = some pre.length := by
      simp [index, hpages]
    have hcur : index t0.pages t0.currentPageIndex = some pre.length := by
      rw [hci]
      exact hq
    have hrefs : ∀ r ∈ t0.pages, r < t0.heap.length := by
      intro r hr
      rw [hp] at hr
      rw [ht]
      have := (List.mem_range'_1.mp hr).2
      simpa using this
    have hnd : t0.pages.Nodup := by
      rw [hp]
      exact List.nodup_range' _ _
    obtain ⟨t, hsw, wf, hpg, hidx, _, _, hread, htitle, _⟩ :=
      switchPage_spec h t0 0 pre.length e pre.length hcur he hq hrefs hnd
    refine ⟨t, hsw, wf, ?_, hidx, htitle⟩
    unfold contents
    rw [hpg, hpages]
    simp only [List.map_cons, List.tail_cons]
    congr 1
    · rw [hread]
      simp
    · have hheap : t0.heap = (pre ++ [el]) ++ rest := by
        rw [ht]
        simp
      have hrd := read_appended t0 (pre ++ [el]) rest hheap
      simp only [List.length_append, List.length_singleton] at hrd
      rw [← hrd]
      apply List.map_congr_left
      intro k hk
      have hk1 := (List.mem_range'_1.mp hk).1
      rw [hread]
      have hkne : k ≠ pre.length := by omega
      simp [hkne]

/-- What `loadDocument` does when the store holds a JSON array: every entry is
parsed into a new page, and the first new page is then overwritten with the
re-serialised markup of the element `editor` still refers to. -/
theorem loadDocument_array_spec (h : Host) (s : State) (text : String) (items : List Json)
    (e : Nat) (he : s.editor = some e) (helt : e < s.heap.length)
    (hci : s.currentPageIndex = 0)
    (hget : getItem s.localStorage "docuEditContent" = some text)
    (hparse : h.parse text = some (.array items)) :
    ∃ t, loadDocument h s = .ok t ∧ WellFormed t
      ∧ contents t
          = h.reserialize (readInnerHTML s e)
            :: (items.map (fun v => h.reserialize (entryMarkup h v))).tail
      ∧ t.currentPageIndex = 0 ∧ t.docTitle = (restoreTitle s).docTitle := by
  have hne : text ≠ "" := by
    intro hempty
    rw [hempty, h.parse_empty] at hparse
    cases hparse
  obtain ⟨f1, f2, f3, f4, f5⟩ := restoreTitle_frame s
  have hget1 : getItem (restoreTitle s).localStorage "docuEditContent" = some text := by
    rw [f5]
    exact hget
  have hfilter : (getItem (restoreTitle s).localStorage "docuEditContent").filter
      (fun c => c ≠ "") = some text := by
    rw [hget1]
    simp [Option.filter, hne]
  let s2 : State := { clearPageContainer (restoreTitle s) with pages := [] }
  have hs2len : s2.heap.length = s.heap.length := by
    simp [s2, clearPageContainer, f1]
  have hread2 : ∀ k, readInnerHTML s2 k = readInnerHTML s k := by
    intro k
    have h1 : readInnerHTML s2 k = readInnerHTML (clearPageContainer (restoreTitle s)) k := rfl
    rw [h1, readInnerHTML_clearPageContainer]
    exact readInnerHTML_congr _ _ f1 k
  obtain ⟨b1, b2, b3, b4, b5, _⟩ := buildPages_spec h items s2
  have hload : loadDocument h s =
      if (buildPages h s2 items).pages.length > 0 then switchPage h (buildPages h s2 items) 0
      else switchPage h
        { buildPages h s2 items with
          heap := (buildPages h s2 items).heap ++ [newPageElement h welcomeMarkup],
          pages := (buildPages h s2 items).pages ++ [(buildPages h s2 items).heap.length] } 0 := by
    unfold loadDocument
    simp only [hfilter, hparse]
  have hed : (buildPages h s2 items).editor = some e := by
    rw [b3]
    show (restoreTitle s).editor = some e
    rw [f3, he]
  have hidx : (buildPages h s2 items).currentPageIndex = 0 := by
    rw [b4]
    show (restoreTitle s).currentPageIndex = 0
    rw [f4, hci]
  have htitle : (buildPages h s2 items).docTitle = (restoreTitle s).docTitle := by
    rw [b5]
    rfl
  have hpages : (buildPages h s2 items).pages = List.range' s2.heap.length items.length := by
    rw [b2]
    rfl
  have hread3 : readInnerHTML (buildPages h s2 items) e = readInnerHTML s e := by
    have hlt2 : e < s2.heap.length := by omega
    rw [← hread2 e]
    simp only [readInnerHTML, b1]
    rw [List.getElem?_append_left hlt2]
  cases items with
  | nil =>
    have hempty : (buildPages h s2 []).pages = [] := by simpa using hpages
    have hheap0 : (buildPages h s2 []).heap = s2.heap := by simpa using b1
    obtain ⟨t, hsw, wf, hc, hi, hd⟩ :=
      switchPage_first_built h
        { buildPages h s2 [] with
          heap := (buildPages h s2 []).heap ++ [newPageElement h welcomeMarkup],
          pages := (buildPages h s2 []).pages ++ [(buildPages h s2 []).heap.length] }
        s2.heap [newPageElement h welcomeMarkup] e
        (by simp [hheap0]) (by simp [hempty, hheap0]) (by simp) hed hidx
    refine ⟨t, ?_, wf, ?_, hi, ?_⟩
    · rw [hload]
      simp only [hempty, List.length_nil, gt_iff_lt, Nat.lt_irrefl, if_false]
      simpa [hempty] using hsw
    · rw [hc]
      have hr : readInnerHTML
          { buildPages h s2 [] with
            heap := (buildPages h s2 []).heap ++ [newPageElement h welcomeMarkup],
            pages := (buildPages h s2 []).pages ++ [(buildPages h s2 []).heap.length] } e
          = readInnerHTML s e := by
        have hlt3 : e < (buildPages h s2 []).heap.length := by rw [hheap0]; omega
        rw [← hread3]
        simp only [readInnerHTML]
        rw [List.getElem?_append_left hlt3]
      rw [hr]
      simp
    · rw [hd]
      exact htitle
  | cons v rest =>
    obtain ⟨t, hsw, wf, hc, hi, hd⟩ :=
      switchPage_first_built h (buildPages h s2 (v :: rest)) s2.heap
        ((v :: rest).map (fun v => newPageElement h (entryMarkup h v))) e
        b1 (by simpa using hpages) (by simp) hed hidx
    refine ⟨t, ?_, wf, ?_, hi, ?_⟩
    · rw [hload]
      have hpos : (buildPages h s2 (v :: rest)).pages.length > 0 := by
        rw [hpages]
        simp
      rw [if_pos hpos]
      exact hsw
    · rw [hc, hread3]
      simp [newPageElement, List.map_map, Function.comp_def]
    · rw [hd]
      exact htitle

/-! ## The claims -/

/-- C9: for an index below 0 or at least the number of pages, `switchPage` logs the
invalid index and changes nothing else: pages, their contents and order, the
active index and the editing surface are those of the state before the call. -/
theorem switchPage_invalid_index (h : Host) (s : State) (i : Int)
    (hi : i < 0 ∨ i ≥ (s.pages.length : Int)) :
    switchPage h s i = .ok { s with consoleErrors := s.consoleErrors ++ [i] } := by
  simp [switchPage, hi]

/-- The index 7 on a two-page collection. -/
theorem switchPage_invalid_index_witness :
    ((7 : Int) < 0 ∨ (7 : Int) ≥ (twoPages.pages.length : Int))
      ∧ switchPage MiniJson.host twoPages 7
          = .ok { twoPages with consoleErrors := twoPages.consoleErrors ++ [7] } :=
  ⟨by decide, switchPage_invalid_index MiniJson.host twoPages 7 (by decide)⟩

/-- C8: on a one-page collection `deletePage` reports 'Cannot delete the last page.'
and leaves everything else as it was: the page, its content, the active index,
the editing surface and the store. -/
theorem deletePage_last_page (h : Host) (confirmed : Bool) (s : State)
    (hone : s.pages.length = 1) :
    deletePage h confirmed s
      = .ok { s with alerts := s.alerts ++ ["Cannot delete the last page."] } := by
  simp [deletePage, hone]

/-- The startup page alone, with the dialog accepted. -/
theorem deletePage_last_page_witness :
    (startupState "W" "T" []).pages.length = 1
      ∧ deletePage MiniJson.host true (startupState "W" "T" [])
          = .ok { startupState "W" "T" [] with alerts := ["Cannot delete the last page."] } :=
  ⟨by decide, deletePage_last_page MiniJson.host true (startupState "W" "T" []) (by decide)⟩

/-- C5, as stated, fails: the active page holds a table row with a `span` around a
cell; after `switchPage(1)` the page that was active no longer stores what the
surface displayed before the call. -/
theorem switchPage_reserializes_counterexample :
    ¬ ∃ t, switchPage MiniJson.host unstablePages 1 = .ok t
      ∧ (contents t)[unstablePages.currentPageIndex.toNat]? = surface unstablePages := by
  intro ⟨t, ht, hc⟩
  have hpc : (switchPage MiniJson.host unstablePages 1).pageContents
      = some [MiniHtml.unstableRowReparsed, "B"] := by decide
  rw [ht] at hpc
  have hct : contents t = [MiniHtml.unstableRowReparsed, "B"] := by
    simpa [Outcome.pageContents] using hpc
  rw [hct] at hc
  revert hc
  decide

/-- C5, amended: in a well-formed collection, `switchPage(i)` for `0 ≤ i < length`
completes with `currentPageIndex = i`; the previously active page stores the
re-serialisation (`innerHTML` assigned, then read) of what the surface
displayed before the call; every other page's content and the number of pages
are unchanged; the surface displays the stored content of page `i`. -/
theorem switchPage_valid_index (h : Host) (s : State) (i : Int) (wf : WellFormed s)
    (h0 : 0 ≤ i) (h1 : i < (s.pages.length : Int)) :
    ∃ t c, switchPage h s i = .ok t
      ∧ surface s = some c
      ∧ t.currentPageIndex = i
      ∧ contents t = (contents s).set s.currentPageIndex.toNat (h.reserialize c)
      ∧ (contents t)[s.currentPageIndex.toNat]? = some (h.reserialize c)
      ∧ surface t = (contents t)[i.toNat]?
      ∧ (surface t).isSome = true
      ∧ t.pages.length = s.pages.length := by
  obtain ⟨p, hp, he, _⟩ := wf.active
  obtain ⟨q, hq, _⟩ := index_in_range s.pages i h0 h1
  obtain ⟨t, hsw, _, hpages, hidx, hed, _, hread, _, _⟩ :=
    switchPage_wf_spec h s i p wf hp h0 h1
  have hc : contents t
      = (contents s).set s.currentPageIndex.toNat (h.reserialize (readInnerHTML s p)) :=
    contents_set s t p _ wf.nodup hp hpages hread
  have hq2 := (index_eq_some_iff _ _ _).mp hq
  have hnat : s.currentPageIndex.toNat < (contents s).length := by
    have a := wf.index_nonneg
    have b := wf.index_lt
    simp only [contents, List.length_map]
    omega
  refine ⟨t, readInnerHTML s p, hsw, by simp [surface, he], hidx, hc, ?_, ?_, ?_, by rw [hpages]⟩
  · rw [hc]
    simp [hnat]
  · simp [contents, surface, hed, hq, hpages, hq2.2]
  · simp [surface, hed, hq]

/-- Scenario 3: three pages, the second edited to `X`, then `switchPage(0)`. -/
theorem switchPage_valid_index_witness :
    ∃ t, switchPage MiniJson.host threePagesEdited 0 = .ok t
      ∧ t.currentPageIndex = 0
      ∧ contents t = ["P0", "X", "P2"]
      ∧ surface t = some "P0" := by
  obtain ⟨t, c, h1, h2, h3, h4, _, h6, _, _⟩ :=
    switchPage_valid_index MiniJson.host threePagesEdited 0
      ⟨by decide, by decide, by decide, by decide, by decide⟩ (by decide) (by decide)
  have hs : surface threePagesEdited = some "X" := by decide
  have hcx : c = "X" := by
    rw [hs] at h2
    exact (Option.some.inj h2).symm
  have hct : contents t = ["P0", "X", "P2"] := by
    rw [h4, hcx]
    decide
  refine ⟨t, h1, h3, hct, ?_⟩
  rw [h6, hct]
  rfl

/-- C6: from the initial single-page state, every finite sequence of `addPage`,
`deletePage` (confirmed or declined), `switchPage(k)` for any integer `k`,
`nextPage` and `prevPage` completes, and afterwards there is at least one page
and `0 ≤ currentPageIndex ≤ length - 1`. -/
theorem reachable_invariant (h : Host) (s0 : State) (ops : List Op) (hs : Startup s0) :
    ∃ t, run h s0 ops = .ok t ∧ 1 ≤ t.pages.length
      ∧ 0 ≤ t.currentPageIndex ∧ t.currentPageIndex ≤ (t.pages.length : Int) - 1 := by
  obtain ⟨t, ht, wf⟩ := run_wf h ops s0 (Startup.wellFormed s0 hs)
  have h0 := wf.index_nonneg
  have h1 := wf.index_lt
  exact ⟨t, ht, by omega, h0, by omega⟩

/-- A run that adds, navigates and deletes down to the last page. -/
theorem reachable_invariant_witness :
    ∃ t, run MiniJson.host (startupState "W" "T" [])
        [.addPage, .addPage, .switchPage (-3), .prevPage, .deletePage true, .nextPage,
         .deletePage true, .deletePage true, .deletePage false] = .ok t
      ∧ 1 ≤ t.pages.length
      ∧ 0 ≤ t.currentPageIndex ∧ t.currentPageIndex ≤ (t.pages.length : Int) - 1 :=
  reachable_invariant MiniJson.host (startupState "W" "T" []) _ ⟨0, by decide, rfl, rfl, rfl⟩

theorem addPages_spec (h : Host) (k : Nat) :
    ∀ s, WellFormed s → ∃ t, addPages h k s = .ok t ∧ WellFormed t
      ∧ t.pages.length = s.pages.length + k
      ∧ t.currentPageIndex
          = if k = 0 then s.currentPageIndex else (s.pages.length : Int) + k - 1 := by
  induction k with
  | zero => intro s wf; exact ⟨s, rfl, wf, by simp, by simp⟩
  | succ k ih =>
    intro s wf
    obtain ⟨p, hp, _, _⟩ := wf.active
    obtain ⟨s1, h1, wf1, _, hl1, hi1⟩ := addPage_wf_spec h s p wf hp
    obtain ⟨t, ht, wft, hlt, hit⟩ := ih s1 wf1
    refine ⟨t, by simp [addPages, h1, Outcome.bind, ht], wft, ?_, ?_⟩
    · omega
    · rw [hit]
      by_cases hk : k = 0
      · subst hk
        simp [hi1]
      · simp only [hk, if_false, hl1]
        push_cast
        simp
        omega

/-- C7, as stated, fails: with the active page holding a table row with a `span`
around a cell, the contents after `addPage` are not the contents before
followed by the placeholder. -/
theorem addPage_reserializes_counterexample :
    (addPage MiniJson.host unstablePages).pageContents
      ≠ some (contents unstablePages ++ ["<p><br></p>"]) := by
  decide

/-- C7, amended: on a well-formed collection of `n` pages `addPage` completes with
`currentPageIndex = n` and `n + 1` pages whose contents are the old ones, the
active page's replaced by its re-serialisation applied twice, followed by the
placeholder `<p><br></p>` re-serialised twice; `k` calls in a row give `n + k`
pages and, for `k > 0`, the active index `n + k - 1` (from a single page:
length `1 + k`, active index `k`). -/
theorem addPage_appends (h : Host) (s : State) (wf : WellFormed s) :
    (∃ t c, addPage h s = .ok t
      ∧ surface s = some c
      ∧ contents t
          = (contents s).set s.currentPageIndex.toNat (h.reserialize (h.reserialize c))
            ++ [h.reserialize (h.reserialize "<p><br></p>")]
      ∧ t.currentPageIndex = (contents s).length)
    ∧ ∀ k, ∃ t, addPages h k s = .ok t
      ∧ t.pages.length = s.pages.length + k
      ∧ t.currentPageIndex
          = if k = 0 then s.currentPageIndex else (s.pages.length : Int) + k - 1 := by
  obtain ⟨p, hp, he, _⟩ := wf.active
  constructor
  · obtain ⟨t, ht, _, hc, _, hi⟩ := addPage_wf_spec h s p wf hp
    exact ⟨t, readInnerHTML s p, ht, by simp [surface, he], hc, by simp [contents, hi]⟩
  · intro k
    obtain ⟨t, ht, _, hl, hi⟩ := addPages_spec h k s wf
    exact ⟨t, ht, hl, hi⟩

/-- Scenario 1: two adds from the single welcome page. -/
theorem addPage_appends_witness :
    (∃ t, addPage MiniJson.host (startupState welcomeMarkup "T" []) = .ok t
      ∧ contents t = [welcomeMarkup, "<p><br></p>"] ∧ t.currentPageIndex = 1)
    ∧ ∃ t, addPages MiniJson.host 2 (startupState welcomeMarkup "T" []) = .ok t
      ∧ t.pages.length = 3 ∧ t.currentPageIndex = 2 := by
  have hw := addPage_appends MiniJson.host (startupState welcomeMarkup "T" [])
    ⟨by decide, by decide, by decide, by decide, by decide⟩
  obtain ⟨⟨t, c, h1, h2, h3, h4⟩, hk⟩ := hw
  have hs : surface (startupState welcomeMarkup "T" []) = some welcomeMarkup := by decide
  have hcx : c = welcomeMarkup := by
    rw [hs] at h2
    exact (Option.some.inj h2).symm
  refine ⟨⟨t, h1, ?_, h4⟩, hk 2⟩
  rw [h3, hcx]
  decide

/-- C1: with two pages `A`, `B`, the first active and shown on the surface, a
confirmed `deletePage` leaves one page whose content is the markup `A` of the
deleted page (re-serialised twice, which leaves `A` as it is); the content `B`
of the remaining page is overwritten. The same happens on a run from the
startup state: add a page, go back to the first page, delete it; the page that
remains holds the deleted page's markup `A`, not the placeholder of the page
that was kept. -/
theorem deletePage_overwrites_neighbour (h : Host) :
    WellFormed twoPages ∧ contents twoPages = ["A", "B"] ∧ twoPages.currentPageIndex = 0
      ∧ surface twoPages = some "A"
      ∧ (deletePage h true twoPages).pageContents
          = some [h.reserialize (h.reserialize "A")]
      ∧ (deletePage MiniJson.host true twoPages).pageContents = some ["A"]
      ∧ (run MiniJson.host (startupState "A" "Report" []) [.addPage, .prevPage]).pageContents
          = some ["A", "<p><br></p>"]
      ∧ (run MiniJson.host (startupState "A" "Report" [])
            [.addPage, .prevPage, .deletePage true]).pageContents
          = some ["A"] :=
  ⟨⟨by decide, by decide, by decide, by decide, by decide⟩, by decide, rfl, by decide, rfl,
    by decide, by decide, by decide⟩

/-- C2: with the array `["A","C"]` stored under the pages key and the initial
editor holding `B`, `loadDocument` from the startup state yields the contents
`B`, `C`: the first stored entry is replaced by the initial editor's markup. -/
theorem loadDocument_overwrites_first_page :
    MiniJson.parse "[\"A\",\"C\"]" = some (.array [.string "A", .string "C"])
      ∧ (loadDocument MiniJson.host
          (startupState "B" "Untitled" [("docuEditContent", "[\"A\",\"C\"]")])).pageContents
        = some ["B", "C"] :=
  ⟨rfl, by decide⟩

/-- C3, as stated, fails: saving the empty title and loading into a page whose
title field starts as `Untitled` gives back `Untitled`, not the empty title. -/
theorem roundTrip_empty_title_counterexample :
    roundTrip MiniJson.host (startupState "A" "" []) (startupState "A" "Untitled" [])
      ≠ some (contents (startupState "A" "" []), (startupState "A" "" []).docTitle) := by
  decide

/-- C3, amended: for every title and every well-formed collection, when
`JSON.parse` returns the array that `JSON.stringify` wrote, `autoSave`
followed by `loadDocument` from a fresh startup state completes; the strings
saved are the contents before the save with the active page re-serialised;
the loaded collection has the same number of pages; every page after the first
holds the re-serialisation of the string saved for it; the title is the saved
title when that is not empty, and the fresh page's initial title when it is. -/
theorem roundTrip_title_and_tail (h : Host) (s fresh : State) (wf : WellFormed s)
    (hf : Startup fresh)
    (hs2 : h.parse (h.stringify (savedContents h s))
      = some (.array ((savedContents h s).map .string))) :
    ∃ cs c, roundTrip h s fresh
        = some (cs, if s.docTitle = "" then fresh.docTitle else s.docTitle)
      ∧ surface s = some c
      ∧ savedContents h s = (contents s).set s.currentPageIndex.toNat (h.reserialize c)
      ∧ cs.length = (contents s).length
      ∧ cs.tail = ((savedContents h s).map h.reserialize).tail := by
  obtain ⟨p, hp, he, _⟩ := wf.active
  obtain ⟨s1, hsave, _, hpages1, _, _, _, hread1, _, hstore1, hsaved⟩ :=
    autoSave_wf_spec h s p wf hp
  obtain ⟨e, helt, hed, _, hci⟩ := hf
  have hc1 : contents s1
      = (contents s).set s.currentPageIndex.toNat (h.reserialize (readInnerHTML s p)) :=
    contents_set s s1 p _ wf.nodup hp hpages1 hread1
  have hcontent : getItem s1.localStorage "docuEditContent"
      = some (h.stringify (contents s1)) := by
    rw [hstore1, getItem_setItem_other _ _ _ _ (by decide), getItem_setItem_same]
  have htitle : getItem s1.localStorage "docuEditTitle" = some s.docTitle := by
    rw [hstore1, getItem_setItem_same]
  rw [hsaved] at hs2
  obtain ⟨t, hload, _, hc, _, hd⟩ :=
    loadDocument_array_spec h { fresh with localStorage := s1.localStorage }
      (h.stringify (contents s1)) ((contents s1).map .string) e hed helt hci hcontent hs2
  have hdoc : t.docTitle = if s.docTitle = "" then fresh.docTitle else s.docTitle := by
    rw [hd]
    by_cases ht : s.docTitle = ""
    · simp [restoreTitle, htitle, ht]
    · simp [restoreTitle, htitle, ht]
  have hmarkup : ((contents s1).map Json.string).map (fun v => h.reserialize (entryMarkup h v))
      = (contents s1).map h.reserialize := by
    rw [List.map_map]
    apply List.map_congr_left
    intro c _
    rfl
  have hlen1 : (contents s1).length = (contents s).length := by
    rw [hc1]
    simp
  have hpos : 0 < (contents s).length := by
    have a := wf.index_nonneg
    have b := wf.index_lt
    simp only [contents, List.length_map]
    omega
  refine ⟨contents t, readInnerHTML s p, ?_, by simp [surface, he], ?_, ?_, ?_⟩
  · simp [roundTrip, hsave, hload, hdoc]
  · rw [hsaved, hc1]
  · rw [hc, hmarkup]
    cases hcs : contents s1 with
    | nil =>
      rw [hcs] at hlen1
      simp at hlen1
      omega
    | cons a rest =>
      rw [hcs] at hlen1
      simp at hlen1 ⊢
      omega
  · rw [hc, hmarkup, hsaved]
    rfl

set_option maxRecDepth 20000

/-- Saving two pages, the active second one holding a table row with a `span`
around a cell, and loading into a fresh page holding `Z`. -/
theorem roundTrip_title_and_tail_witness :
    ∃ cs, roundTrip MiniJson.host unstableSecondPage (startupState "Z" "Untitled" [])
        = some (cs, "Report")
      ∧ cs.length = 2 ∧ cs.tail = [MiniHtml.unstableRowReparsed] := by
  obtain ⟨cs, c, h1, _, h3, h4, h5⟩ :=
    roundTrip_title_and_tail MiniJson.host unstableSecondPage (startupState "Z" "Untitled" [])
      ⟨by decide, by decide, by decide, by decide, by decide⟩ ⟨0, by decide, rfl, rfl, rfl⟩
      rfl
  have hsv : savedContents MiniJson.host unstableSecondPage
      = ["A", MiniHtml.unstableRowReparsed] := by decide
  refine ⟨cs, h1, h4, ?_⟩
  rw [h5, hsv]
  decide

/-- C4, as stated, fails: with the invalid JSON text `oops` under the pages key,
`loadDocument` does not complete; it throws `SyntaxError`. -/
theorem loadDocument_invalid_json_counterexample :
    ¬ ∃ t, loadDocument MiniJson.host
        (startupState "B" "Untitled" [("docuEditContent", "oops")]) = .ok t
      ∧ t.pages.length = 1 ∧ t.currentPageIndex = 0 := by
  intro ⟨t, ht, _⟩
  have hthrow : loadDocument MiniJson.host
      (startupState "B" "Untitled" [("docuEditContent", "oops")])
      = .throw .syntaxError (startupState "B" "Untitled" [("docuEditContent", "oops")]) := by
    decide
  rw [hthrow] at ht
  cases ht

/-- C4, amended: from the startup state, a stored pages text that does not parse to
an array makes `loadDocument` throw unless it is empty: `SyntaxError` when the
text is not JSON, with pages and active index untouched, and `TypeError` when it
is JSON of another kind, with the page list emptied. The empty text is treated
as absent and leaves one page with active index 0. -/
theorem loadDocument_malformed (h : Host) (s : State) (text : String) (hs : Startup s)
    (hget : getItem s.localStorage "docuEditContent" = some text)
    (hbad : ∀ items, h.parse text ≠ some (.array items)) :
    if text = "" then
      ∃ t, loadDocument h s = .ok t ∧ t.pages.length = 1 ∧ t.currentPageIndex = 0
    else
      loadDocument h s =
        match h.parse text with
        | none => .throw .syntaxError (restoreTitle s)
        | some _ => .throw .typeError { clearPageContainer (restoreTitle s) with pages := [] } := by
  obtain ⟨f1, f2, f3, f4, f5⟩ := restoreTitle_frame s
  have hget1 : getItem (restoreTitle s).localStorage "docuEditContent" = some text := by
    rw [f5]
    exact hget
  by_cases hempty : text = ""
  · rw [if_pos hempty]
    have hfilter : (getItem (restoreTitle s).localStorage "docuEditContent").filter
        (fun c => c ≠ "") = none := by
      rw [hget1]
      simp [Option.filter, hempty]
    have hs1 : Startup (restoreTitle s) := by
      obtain ⟨e, helt, hed, hp, hci⟩ := hs
      exact ⟨e, by rw [f1]; exact helt, by rw [f3]; exact hed, by rw [f2]; exact hp,
        by rw [f4]; exact hci⟩
    have wf1 := Startup.wellFormed _ hs1
    have hlen : (restoreTitle s).pages.length = 1 := by
      obtain ⟨e, _, _, hp, _⟩ := hs1
      rw [hp]
      rfl
    obtain ⟨p, hp, _, _⟩ := wf1.active
    obtain ⟨t, hsw, _, hpages, hidx, _⟩ :=
      switchPage_wf_spec h (restoreTitle s) 0 p wf1 hp (by decide) (by rw [hlen]; decide)
    refine ⟨t, ?_, by rw [hpages, hlen], hidx⟩
    unfold loadDocument
    simp only [hfilter]
    split <;> simp [hlen, hsw]
  · rw [if_neg hempty]
    have hfilter : (getItem (restoreTitle s).localStorage "docuEditContent").filter
        (fun c => c ≠ "") = some text := by
      rw [hget1]
      simp [Option.filter, hempty]
    unfold loadDocument
    simp only [hfilter]
    cases hparse : h.parse text with
    | none => rfl
    | some v =>
      cases v with
      | array items => exact absurd hparse (hbad items)
      | null => rfl
      | bool b => rfl
      | number n => rfl
      | string c => rfl
      | object m => rfl

/-- The stored text `null` is JSON but not an array. -/
theorem loadDocument_malformed_witness :
    loadDocument MiniJson.host (startupState "B" "Untitled" [("docuEditContent", "null")])
      = .throw .typeError
          { clearPageContainer
              (restoreTitle (startupState "B" "Untitled" [("docuEditContent", "null")])) with
            pages := [] } :=
  loadDocument_malformed MiniJson.host
    (startupState "B" "Untitled" [("docuEditContent", "null")]) "null"
    ⟨0, by decide, rfl, rfl, rfl⟩ rfl (by intro items hp; cases hp)

/-- C10, as stated, fails: after `autoSave` nothing is stored under the keys
`docTitle` and `docPages`. -/
theorem autoSave_keys_counterexample :
    ¬ ∃ t, autoSave MiniJson.host twoPages = .ok t
      ∧ getItem t.localStorage "docTitle" = some twoPages.docTitle
      ∧ getItem t.localStorage "docPages" = some (MiniJson.stringify (contents twoPages)) := by
  intro ⟨t, ht, htitle, _⟩
  have hsave : autoSave MiniJson.host twoPages
      = .ok { twoPages with
              localStorage := [("docuEditTitle", "Report"), ("docuEditContent", "[\"A\",\"B\"]")],
              saveStatus := "All changes saved" } := by
    decide
  rw [hsave] at ht
  cases ht
  revert htitle
  decide

/-- C10, amended: `autoSave` on a well-formed collection re-serialises the active
page and leaves the other pages' contents as they are, writes the title as a
plain string under the store key `docuEditTitle`, and writes under
`docuEditContent` the `JSON.stringify` text of the array of page markups as
they are after that, one per page in document order. -/
theorem autoSave_writes_store (h : Host) (s : State) (wf : WellFormed s) :
    ∃ t c, autoSave h s = .ok t
      ∧ surface s = some c
      ∧ contents t = (contents s).set s.currentPageIndex.toNat (h.reserialize c)
      ∧ getItem t.localStorage "docuEditTitle" = some s.docTitle
      ∧ getItem t.localStorage "docuEditContent" = some (h.stringify (contents t)) := by
  obtain ⟨p, hp, he, _⟩ := wf.active
  obtain ⟨t, hsave, _, hpages, _, _, _, hread, _, hstore, _⟩ := autoSave_wf_spec h s p wf hp
  refine ⟨t, readInnerHTML s p, hsave, by simp [surface, he],
    contents_set s t p _ wf.nodup hp hpages hread, ?_, ?_⟩
  · rw [hstore, getItem_setItem_same]
  · rw [hstore, getItem_setItem_other _ _ _ _ (by decide), getItem_setItem_same]

/-- Saving two pages titled `Report`, the active first one holding a table row
with a `span` around a cell. -/
theorem autoSave_writes_store_witness :
    ∃ t, autoSave MiniJson.host unstablePages = .ok t
      ∧ contents t = [MiniHtml.unstableRowReparsed, "B"]
      ∧ getItem t.localStorage "docuEditTitle" = some "Report"
      ∧ getItem t.localStorage "docuEditContent"
          = some (MiniJson.stringify [MiniHtml.unstableRowReparsed, "B"]) := by
  obtain ⟨t, c, h1, h2, h3, h4, h5⟩ :=
    autoSave_writes_store MiniJson.host unstablePages
      ⟨by decide, by decide, by decide, by decide, by decide⟩
  have hs : surface unstablePages = some MiniHtml.unstableRow := by decide
  have hcx : c = MiniHtml.unstableRow := by
    rw [hs] at h2
    exact (Option.some.inj h2).symm
  have hct : contents t = [MiniHtml.unstableRowReparsed, "B"] := by
    rw [h3, hcx]
    decide
  refine ⟨t, h1, hct, h4, ?_⟩
  rw [h5, hct]
  rfl

end DocuEdit
